import Mathlib

/-!
Shallow embedding of the parallel execution engine of `fabric/context.py`
(the `multirun` / `_multirun` worker pool, the `ResponseList` container and
the `failed` / `succeeded` / `select` utilities), together with theorems
about the engine's behaviour.

Modelling conventions:

* A worker pool run is driven by the orchestrator loop of `_multirun`
  (context.py lines 488-551).  The only nondeterminism is the order in
  which worker results arrive on the shared socket and, in laggard mode,
  whether the `SIGALRM` alarm fires before a connection is accepted and
  how much wall-clock time each accept takes.  We therefore parametrise a
  run by a *schedule*: a list of events, each either `arrive c t` (a
  connection from the worker with client id `c` is accepted after waiting
  `t` seconds) or `alarmFired` (the alarm raised `TimeoutException` before
  any connection arrived).
* Worker processes are deterministic given the operation: the worker with
  client id `c` always reports the index it currently holds, together
  with the response `op i` computed for that index (lines 419-451).  The
  function `op : Nat -> Resp` abstracts running the command under
  `settings_list[i]`.
* Python values relevant to argument validation are embedded as `PyVal`
  (None, int, float), with floats represented exactly as rationals.
* Machine-level details that the claims do not touch (pickling, the
  16-bit index framing, file descriptors) are not modelled; wall-clock
  durations are rationals.
-/

namespace FabricCtx

/-- A slot of the internal `responses` array of `_multirun`.  `pynone` is
Python's `None` (the initial fill when no laggards timeout is configured,
line 462), `timeout` is the `TIMEOUT` sentinel (`ProcessTimeout`, lines
66-82, initial fill in laggard mode, line 456), `ok v` a successful
response payload and `err e` an exception object recorded as a response. -/
inductive Resp
  | pynone
  | timeout
  | ok (v : Nat)
  | err (e : Nat)
  deriving DecidableEq, Repr

/-- One observable event at the orchestrator's accept loop: either a
worker connection is accepted (`arrive c t`: the worker with client id
`c` reports, after the orchestrator waited `t` seconds), or the laggards
alarm fires first (`alarmFired`, raising `TimeoutException`). -/
inductive Event
  | arrive (client : Nat) (elapsed : ℚ)
  | alarmFired
  deriving DecidableEq

/-- Orchestrator state of `_multirun`.  `procs` is the `processes` dict
restricted to what the claims need: client id, paired with the work index
that worker currently holds (`spec[3]`).  `idx` is the next index to hand
out, `done` the number of recorded results, `responses` the result array,
`dispatched` the trace of (client id, index) dispatches in order,
`recorded` the indices whose results were received, in arrival order, and
`totalWaited` the accumulated `total_waited` clock of laggard mode. -/
structure EngineState where
  procs : List (Nat × Nat)
  idx : Nat
  done : Nat
  responses : List Resp
  dispatched : List (Nat × Nat)
  recorded : List Nat
  totalWaited : ℚ
  deriving DecidableEq

/-- Observable outcome of a `_multirun` call: the final `responses` array
(wrapped into a `ResponseList` on line 572), the receipt and dispatch
traces, the workers that were force-killed on an early break (lines
553-555), whether the loop broke early, and the final `done` counter. -/
structure Outcome where
  responses : List Resp
  recorded : List Nat
  dispatched : List (Nat × Nat)
  killed : List (Nat × Nat)
  brokeEarly : Bool
  doneCount : Nat
  deriving DecidableEq, Repr

/-- Lookup in an association list keyed by client id (the `processes`
dict of `_multirun`). -/
def alLookup : List (Nat × Nat) → Nat → Option Nat
  | [], _ => none
  | p :: rest, k => if p.1 = k then some p.2 else alLookup rest k

/-- Replace the value held under key `k` (the `spec[3] = idx` update on
line 528). -/
def alSet : List (Nat × Nat) → Nat → Nat → List (Nat × Nat)
  | [], _, _ => []
  | p :: rest, k, v => if p.1 = k then (k, v) :: rest else p :: alSet rest k v

/-- Remove the entry under key `k` (the `processes.pop(client_id)` on
line 532). -/
def alRemove : List (Nat × Nat) → Nat → List (Nat × Nat)
  | [], _ => []
  | p :: rest, k => if p.1 = k then rest else p :: alRemove rest k

/-- Processing of one received worker message, context.py lines 523-535:
the reporting worker `c` currently holds index `j`; record `op j` at slot
`j`, bump `done`, and either hand `c` the next index `s.idx` (when
`idx < total`) or retire it (send the 0 sentinel and drop it from
`processes`).  Returns `none` when no active worker has client id `c`
(such a message cannot occur in a real run). -/
def processMsg (total : Nat) (op : Nat → Resp) (s : EngineState) (c : Nat) :
    Option EngineState :=
  match alLookup s.procs c with
  | none => none
  | some j =>
    if s.idx < total then
      some { procs := alSet s.procs c s.idx, idx := s.idx + 1, done := s.done + 1,
             responses := s.responses.set j (op j),
             dispatched := s.dispatched ++ [(c, s.idx)],
             recorded := s.recorded ++ [j], totalWaited := s.totalWaited }
    else
      some { procs := alRemove s.procs c, idx := s.idx, done := s.done + 1,
             responses := s.responses.set j (op j),
             dispatched := s.dispatched,
             recorded := s.recorded ++ [j], totalWaited := s.totalWaited }

/-- Truthiness test `wait_for and done >= wait_for` of lines 491 and 505
(`wait_for` is `None`, or an int after conversion; `0` is falsy). -/
def waitGate (wf : Option Int) (done : Nat) : Bool :=
  match wf with
  | none => false
  | some n => n ≠ 0 && n ≤ (done : Int)

/-- Result of one iteration of the `while done < total` loop. -/
inductive IterOut
  | cont (s : EngineState)
  | brk (s : EngineState)
  | invalid

/-- One iteration of the orchestrator loop (lines 488-535).  `cfg` is
`none` when no laggards timeout is configured (plain blocking accept,
line 511) and `some (T, wf)` when `laggards_timeout = T` is truthy, with
`wf` the converted `wait_for`.  In laggard mode an `alarmFired` event
follows lines 495-502 (break unless a truthy `wait_for` threshold has not
yet been reached), and an `arrive` event follows lines 503-509: once
`done >= wait_for`, the waiting time accumulates into `total_waited` and
the loop breaks, discarding the just-accepted connection, as soon as the
accumulated time exceeds `T`; otherwise the message is processed. -/
def iterStep (total : Nat) (op : Nat → Resp) (cfg : Option (ℚ × Option Int))
    (s : EngineState) : Event → IterOut
  | Event.alarmFired =>
    match cfg with
    | none => IterOut.invalid
    | some (_, wf) =>
      match wf with
      | none => IterOut.brk s
      | some n =>
        if n = 0 then IterOut.brk s
        else if n ≤ (s.done : Int) then IterOut.brk s
        else IterOut.cont s
  | Event.arrive c t =>
    match cfg with
    | none =>
      match processMsg total op s c with
      | none => IterOut.invalid
      | some s2 => IterOut.cont s2
    | some (T, wf) =>
      if waitGate wf s.done then
        if T < s.totalWaited + t then
          IterOut.brk { s with totalWaited := s.totalWaited + t }
        else
          match processMsg total op { s with totalWaited := s.totalWaited + t } c with
          | none => IterOut.invalid
          | some s2 => IterOut.cont s2
      else
        match processMsg total op s c with
        | none => IterOut.invalid
        | some s2 => IterOut.cont s2

/-- The orchestrator loop `while done < total` (lines 488-535), driven by
the event schedule.  Returns the final state and whether the loop was
left through an early break; `none` marks a schedule that is impossible
or leaves the loop blocked forever (schedule exhausted while work
remains). -/
def engineLoop (total : Nat) (op : Nat → Resp) (cfg : Option (ℚ × Option Int)) :
    List Event → EngineState → Option (EngineState × Bool)
  | [], s => if total ≤ s.done then some (s, false) else none
  | e :: rest, s =>
    if total ≤ s.done then some (s, false)
    else
      match iterStep total op cfg s e with
      | IterOut.invalid => none
      | IterOut.brk s2 => some (s2, true)
      | IterOut.cont s2 => engineLoop total op cfg rest s2

/-- State reached after the orchestrator loop has consumed a prefix of
the schedule (stopping at normal completion or at an early break); used
to state run-long invariants. -/
def runPrefix (total : Nat) (op : Nat → Resp) (cfg : Option (ℚ × Option Int)) :
    List Event → EngineState → Option EngineState
  | [], s => some s
  | e :: rest, s =>
    if total ≤ s.done then some s
    else
      match iterStep total op cfg s e with
      | IterOut.invalid => none
      | IterOut.brk s2 => some s2
      | IterOut.cont s2 => runPrefix total op cfg rest s2

/-- Initial orchestrator state after the spawn loop of lines 401-407:
`min pool_size total` workers are forked, worker `c` holds index `c`, the
next index to hand out is `min pool_size total`, and the responses array
is pre-filled with `TIMEOUT` in laggard mode (line 456) and with `None`
otherwise (line 462). -/
def initState (total pool : Nat) (laggard : Bool) : EngineState :=
  { procs := (List.range (min pool total)).map (fun c => (c, c)),
    idx := min pool total, done := 0,
    responses := List.replicate total (if laggard then Resp.timeout else Resp.pynone),
    dispatched := (List.range (min pool total)).map (fun c => (c, c)),
    recorded := [], totalWaited := 0 }

/-- Teardown after the loop (lines 552-572): on an early break every
worker still registered in `processes` is killed (lines 553-555); the
responses array is returned as a `ResponseList`. -/
def finishRun (s : EngineState) (early : Bool) : Outcome :=
  { responses := s.responses, recorded := s.recorded, dispatched := s.dispatched,
    killed := if early then s.procs else [], brokeEarly := early,
    doneCount := s.done }

/-- A complete `_multirun` execution on a settings list of length
`total`, with pool size `pool` (`env.multirun_pool_size`), worker
behaviour `op`, laggard configuration `cfg` and event schedule `sched`. -/
def multirunExec (total pool : Nat) (op : Nat → Resp)
    (cfg : Option (ℚ × Option Int)) (sched : List Event) : Option Outcome :=
  (engineLoop total op cfg sched (initState total pool cfg.isSome)).map
    (fun p => finishRun p.1 p.2)

/-- Embedding of the Python values that the `multirun` argument checks
inspect: `None`, ints, and floats (floats represented exactly as
rationals). -/
inductive PyVal
  | pynone
  | int (n : Int)
  | float (q : ℚ)
  deriving DecidableEq, Repr

/-- Python truthiness of a `PyVal` (`None` and numeric zero are falsy). -/
def PyVal.truthy : PyVal → Bool
  | .pynone => false
  | .int n => n ≠ 0
  | .float q => q ≠ 0

/-- Python `isinstance(x, int)`. -/
def PyVal.isInt : PyVal → Bool
  | .int _ => true
  | _ => false

/-- Python `isinstance(x, float)`. -/
def PyVal.isFloat : PyVal → Bool
  | .float _ => true
  | _ => false

/-- Argument validation of `multirun`, context.py lines 361-371: when
`laggards_timeout` is truthy it must be an int, and a float `wait_for`
must lie in `[0.0, 1.0]` and is converted to `int(ceil(wait_for *
len(settings_list)))`.  Returns the (possibly converted) `wait_for`. -/
def multirunValidate (total : Nat) (lt wf : PyVal) : Except String PyVal :=
  if lt.truthy then
    if ¬ lt.isInt then
      Except.error "The laggards_timeout parameter must be an int."
    else
      match wf with
      | PyVal.float q =>
        if 0 ≤ q ∧ q ≤ 1 then Except.ok (PyVal.int ⌈q * (total : ℚ)⌉)
        else Except.error "A float wait_for needs to be between 0.0 and 1.0"
      | _ => Except.ok wf
  else Except.ok wf

/-- The laggard configuration handed to the orchestrator loop: `none`
when `laggards_timeout` is falsy, otherwise the timeout as a rational
together with the converted `wait_for` (an int, or `none` for any
non-int value, which the loop treats as falsy). -/
def mkCfg (lt wf : PyVal) : Option (ℚ × Option Int) :=
  if lt.truthy then
    some ((match lt with | PyVal.int n => (n : ℚ) | PyVal.float q => q | PyVal.pynone => 0),
          (match wf with | PyVal.int n => some n | _ => none))
  else none

/-- Observable outcome of one `multirun` call: the engine outcome (or
`none` for a schedule on which the run blocks), the laggard configuration
in force, the number of workers forked (lines 401-403) and whether the
shared result socket was created (lines 397-399). -/
structure MultirunCall where
  result : Option Outcome
  cfg : Option (ℚ × Option Int)
  workersSpawned : Nat
  channelCreated : Bool
  deriving DecidableEq, Repr

/-- The `multirun` entry point, context.py lines 353-380: an empty
settings list returns an empty `ResponseList` at once (lines 358-360,
before any validation, socket creation or fork); otherwise the arguments
are validated and `_multirun` runs the worker pool. -/
def multirunModel (total pool : Nat) (op : Nat → Resp) (lt wf : PyVal)
    (sched : List Event) : Except String MultirunCall :=
  if total = 0 then
    Except.ok { result := some { responses := [], recorded := [], dispatched := [],
                                 killed := [], brokeEarly := false, doneCount := 0 },
                cfg := none, workersSpawned := 0, channelCreated := false }
  else
    match multirunValidate total lt wf with
    | Except.error e => Except.error e
    | Except.ok wf2 =>
      Except.ok { result := multirunExec total pool op (mkCfg lt wf2) sched,
                  cfg := mkCfg lt wf2, workersSpawned := min pool total,
                  channelCreated := true }

/-- Worker-side execution of a callable command under `warn_only = true`
(context.py lines 426-447): any exception raised by the command is
caught, `handle_failure` only warns, and the exception object itself
becomes the response.  `run i` abstracts calling the command under
`settings_list[i]`, returning either a payload or a raised exception. -/
def workerRespond (run : Nat → Except Nat Nat) (i : Nat) : Resp :=
  match run i with
  | Except.ok v => Resp.ok v
  | Except.error e => Resp.err e

/-- The message a worker sends on the shared socket after executing index
`i` (context.py lines 448-451): `(client_id, idx, response)`. -/
def workerMessage (run : Nat → Except Nat Nat) (clientId i : Nat) :
    Nat × Nat × Resp :=
  (clientId, i, workerRespond run i)

/-- Shape of one response as inspected by the `failed` / `succeeded`
utilities: either an `Exception` instance, or any other object, of which
only the truthiness of its `failed` and `succeeded` attributes matters.
The `TIMEOUT` sentinel is an object with `failed = 1`, `succeeded = 0`
(context.py lines 66-82). -/
inductive RValue
  | exn (e : Nat)
  | obj (failedFlag succeededFlag : Bool)
  deriving DecidableEq, Repr

/-- The `TIMEOUT` sentinel as seen by `failed` / `succeeded`. -/
def timeoutRValue : RValue := RValue.obj true false

/-- Utility `failed` (context.py lines 598-600): true when any response
is an `Exception` or has a truthy `failed` attribute. -/
def failed (responses : List RValue) : Bool :=
  responses.any fun r =>
    match r with
    | RValue.exn _ => true
    | RValue.obj f _ => f

/-- Utility `succeeded` (context.py lines 603-608): true when every
response is not an `Exception` and has a truthy `succeeded` attribute. -/
def succeeded (responses : List RValue) : Bool :=
  responses.all fun r =>
    match r with
    | RValue.exn _ => false
    | RValue.obj _ s => s

/-- Python list item assignment `lst[i] = v` as inherited by
`ResponseList` (context.py lines 129-151: the class subclasses `list` and
adds no indexing methods).  CPython semantics: a negative index first has
the length added to it, then an index outside `[0, len)` raises
`IndexError` and leaves the list unchanged.  Returns the resulting list
together with the raised error, if any. -/
def pyListSetItem (l : List Resp) (i : Int) (v : Resp) : List Resp × Option String :=
  if 0 ≤ i ∧ i < (l.length : Int) then (l.set i.toNat v, none)
  else if -(l.length : Int) ≤ i ∧ i < 0 then (l.set (i + l.length).toNat v, none)
  else (l, some "IndexError: list assignment index out of range")

/-- Names bound in the local scope of `ContextRunner.select` when the
integer branch on line 587 executes: the function parameters. -/
def selectLocalNames : List String := ["self", "filter"]

/-- Names bound at module level in `fabric/context.py`, visible as
globals to code in the module: the imports of lines 4-32 and the
top-level classes, functions and constants of the file. -/
def contextModuleNames : List String :=
  ["atexit", "sys", "dumps", "loads", "ceil", "X_OK", "access", "environ",
   "getcwd", "listdir", "pathsep", "pipe", "expanduser", "isabs", "isdir",
   "join", "normpath", "sample", "AF_UNIX", "SOCK_STREAM", "socketerror",
   "socket", "calcsize", "pack", "unpack", "time", "format_exc", "uuid4",
   "atfork", "settings", "Blank", "execute", "local", "reboot", "run",
   "sudo", "env", "output", "abort", "fastprint", "indent", "warn",
   "EAGAIN", "EINTR", "EPIPE", "close", "fork", "kill", "read", "remove",
   "write", "SIGALRM", "SIGTERM", "alarm", "signal", "forkable",
   "DevNull", "builtins", "dev_null", "index_header_size",
   "shell_history_file", "ProcessTimeout", "TIMEOUT", "TimeoutException",
   "WarningBoolean", "WarnOnly", "handle_failure", "ShellSpec",
   "ResponseList", "ContextRunner", "failed", "succeeded", "shell",
   "info", "cd", "builtin_local", "builtin_sudo", "toggle_format", "foo",
   "multilocal", "multirun", "multisudo", "help", "binaries_on_path",
   "get_binaries_on_path", "complete", "readline"]

/-- The Python 2 builtin names (the final scope consulted by name
resolution). -/
def pythonBuiltinNames : List String :=
  ["abs", "all", "any", "apply", "basestring", "bin", "bool", "buffer",
   "bytearray", "bytes", "callable", "chr", "classmethod", "cmp",
   "coerce", "compile", "complex", "delattr", "dict", "dir", "divmod",
   "enumerate", "eval", "execfile", "file", "filter", "float", "format",
   "frozenset", "getattr", "globals", "hasattr", "hash", "help", "hex",
   "id", "input", "int", "intern", "isinstance", "issubclass", "iter",
   "len", "list", "locals", "long", "map", "max", "memoryview", "min",
   "next", "object", "oct", "open", "ord", "pow", "print", "property",
   "range", "raw_input", "reduce", "reload", "repr", "reversed", "round",
   "set", "setattr", "slice", "sorted", "staticmethod", "str", "sum",
   "super", "tuple", "type", "unichr", "unicode", "vars", "xrange",
   "zip", "True", "False", "None", "NotImplemented", "Ellipsis",
   "Exception", "BaseException", "StandardError", "ArithmeticError",
   "AssertionError", "AttributeError", "EOFError", "EnvironmentError",
   "FloatingPointError", "GeneratorExit", "IOError", "ImportError",
   "IndentationError", "IndexError", "KeyError", "KeyboardInterrupt",
   "LookupError", "MemoryError", "NameError", "NotImplementedError",
   "OSError", "OverflowError", "ReferenceError", "RuntimeError",
   "StopIteration", "SyntaxError", "SystemError", "SystemExit",
   "TabError", "TypeError", "UnboundLocalError", "UnicodeError",
   "ValueError", "ZeroDivisionError", "Warning", "UserWarning",
   "DeprecationWarning", "RuntimeWarning", "FutureWarning",
   "__name__", "__doc__", "__debug__", "__import__"]

/-- Python name resolution as seen from inside `ContextRunner.select`:
a name is bound when it occurs in the local scope, the module globals or
the builtins. -/
def nameBound (name : String) : Bool :=
  selectLocalNames.contains name || contextModuleNames.contains name ||
    pythonBuiltinNames.contains name

/-- The integer branch of `ContextRunner.select` (context.py lines
586-587): `return ContextRunner(settings=sample(self._settings, count))`.
Evaluating the argument expression resolves the name `count`; if it is
unbound in every scope, the lookup raises `NameError` and nothing is
returned.  The sampling itself is unreachable (and therefore not
modelled further): `count` is bound in no scope. -/
def selectIntBranch (settingsList : List Nat) ( _n : Int) :
    Except String (List Nat) :=
  if nameBound "count" then Except.ok settingsList
  else Except.error "NameError: global name count is not defined"

theorem alLookup_mem {l : List (Nat × Nat)} {k v : Nat}
    (h : alLookup l k = some v) : (k, v) ∈ l := by
  induction l with
  | nil => simp [alLookup] at h
  | cons p rest ih =>
    by_cases hk : p.1 = k
    · simp only [alLookup, if_pos hk] at h
      injection h with h2
      subst hk
      subst h2
      exact List.mem_cons_self _ _
    · simp only [alLookup, if_neg hk] at h
      exact List.mem_cons_of_mem _ (ih h)

theorem alSet_length (l : List (Nat × Nat)) (k v : Nat) :
    (alSet l k v).length = l.length := by
  induction l with
  | nil => rfl
  | cons p rest ih =>
    by_cases hk : p.1 = k
    · simp [alSet, if_pos hk]
    · simp [alSet, if_neg hk, ih]

theorem alSet_map_fst (l : List (Nat × Nat)) (k v : Nat) :
    (alSet l k v).map Prod.fst = l.map Prod.fst := by
  induction l with
  | nil => rfl
  | cons p rest ih =>
    by_cases hk : p.1 = k
    · simp [alSet, if_pos hk, hk]
    · simp [alSet, if_neg hk, ih]

theorem mem_alSet {l : List (Nat × Nat)} (hnd : (l.map Prod.fst).Nodup)
    {k v : Nat} {p : Nat × Nat} (h : p ∈ alSet l k v) :
    p = (k, v) ∨ (p ∈ l ∧ p.1 ≠ k) := by
  induction l with
  | nil => simp [alSet] at h
  | cons q rest ih =>
    rw [List.map_cons, List.nodup_cons] at hnd
    by_cases hk : q.1 = k
    · simp only [alSet, if_pos hk] at h
      rcases List.mem_cons.mp h with h | h
      · exact Or.inl h
      · refine Or.inr ⟨List.mem_cons_of_mem _ h, ?_⟩
        intro hpk
        exact hnd.1 (hk ▸ hpk ▸ List.mem_map_of_mem Prod.fst h)
    · simp only [alSet, if_neg hk] at h
      rcases List.mem_cons.mp h with h | h
      · subst h
        exact Or.inr ⟨List.mem_cons_self _ _, hk⟩
      · rcases ih hnd.2 h with h | ⟨h1, h2⟩
        · exact Or.inl h
        · exact Or.inr ⟨List.mem_cons_of_mem _ h1, h2⟩

theorem alSet_mem_self {l : List (Nat × Nat)} {k w : Nat}
    (h : alLookup l k = some w) (v : Nat) : (k, v) ∈ alSet l k v := by
  induction l with
  | nil => simp [alLookup] at h
  | cons p rest ih =>
    by_cases hk : p.1 = k
    · simp [alSet, if_pos hk]
    · simp only [alLookup, if_neg hk] at h
      simp only [alSet, if_neg hk]
      exact List.mem_cons_of_mem _ (ih h)

theorem mem_alSet_of_ne {l : List (Nat × Nat)} {p : Nat × Nat} (h : p ∈ l)
    {k : Nat} (hne : p.1 ≠ k) (v : Nat) : p ∈ alSet l k v := by
  induction l with
  | nil => simp at h
  | cons q rest ih =>
    by_cases hk : q.1 = k
    · simp only [alSet, if_pos hk]
      rcases List.mem_cons.mp h with h | h
      · exact absurd (h ▸ hk) hne
      · exact List.mem_cons_of_mem _ h
    · simp only [alSet, if_neg hk]
      rcases List.mem_cons.mp h with h | h
      · exact h ▸ List.mem_cons_self _ _
      · exact List.mem_cons_of_mem _ (ih h)

theorem alRemove_length {l : List (Nat × Nat)} {k v : Nat}
    (h : alLookup l k = some v) : (alRemove l k).length + 1 = l.length := by
  induction l with
  | nil => simp [alLookup] at h
  | cons p rest ih =>
    by_cases hk : p.1 = k
    · simp [alRemove, if_pos hk]
    · simp only [alLookup, if_neg hk] at h
      simp [alRemove, if_neg hk, ih h]

theorem alRemove_map_fst_sublist (l : List (Nat × Nat)) (k : Nat) :
    ((alRemove l k).map Prod.fst).Sublist (l.map Prod.fst) := by
  induction l with
  | nil => simp [alRemove]
  | cons p rest ih =>
    by_cases hk : p.1 = k
    · simp only [alRemove, if_pos hk, List.map_cons]
      exact List.sublist_cons_of_sublist _ (List.Sublist.refl _)
    · simp only [alRemove, if_neg hk, List.map_cons]
      exact List.Sublist.cons₂ _ ih

theorem mem_alRemove {l : List (Nat × Nat)} (hnd : (l.map Prod.fst).Nodup)
    {k : Nat} {p : Nat × Nat} (h : p ∈ alRemove l k) : p ∈ l ∧ p.1 ≠ k := by
  induction l with
  | nil => simp [alRemove] at h
  | cons q rest ih =>
    rw [List.map_cons, List.nodup_cons] at hnd
    by_cases hk : q.1 = k
    · simp only [alRemove, if_pos hk] at h
      refine ⟨List.mem_cons_of_mem _ h, ?_⟩
      intro hpk
      exact hnd.1 (hk ▸ hpk ▸ List.mem_map_of_mem Prod.fst h)
    · simp only [alRemove, if_neg hk] at h
      rcases List.mem_cons.mp h with h | h
      · exact ⟨h ▸ List.mem_cons_self _ _, h ▸ hk⟩
      · rcases ih hnd.2 h with ⟨h1, h2⟩
        exact ⟨List.mem_cons_of_mem _ h1, h2⟩

theorem mem_alRemove_of_ne {l : List (Nat × Nat)} {p : Nat × Nat} (h : p ∈ l)
    {k : Nat} (hne : p.1 ≠ k) : p ∈ alRemove l k := by
  induction l with
  | nil => simp at h
  | cons q rest ih =>
    by_cases hk : q.1 = k
    · simp only [alRemove, if_pos hk]
      rcases List.mem_cons.mp h with h | h
      · exact absurd (h ▸ hk) hne
      · exact h
    · simp only [alRemove, if_neg hk]
      rcases List.mem_cons.mp h with h | h
      · exact h ▸ List.mem_cons_self _ _
      · exact List.mem_cons_of_mem _ (ih h)

theorem alLookup_unique {l : List (Nat × Nat)} (hnd : (l.map Prod.fst).Nodup)
    {k v : Nat} (h : alLookup l k = some v) {q : Nat × Nat} (hq : q ∈ l)
    (hk : q.1 = k) : q.2 = v := by
  induction l with
  | nil => simp at hq
  | cons p rest ih =>
    rw [List.map_cons, List.nodup_cons] at hnd
    by_cases hpk : p.1 = k
    · simp only [alLookup, if_pos hpk] at h
      rcases List.mem_cons.mp hq with hq | hq
      · cases h; rw [hq]
      · exact absurd (hpk ▸ hk ▸ List.mem_map_of_mem Prod.fst hq) hnd.1
    · simp only [alLookup, if_neg hpk] at h
      rcases List.mem_cons.mp hq with hq | hq
      · exact absurd (hq ▸ hk) hpk
      · exact ih hnd.2 h hq

/-- Run-long invariant of the orchestrator state: the responses array
keeps length `total`; at most `total` indices have been handed out, each
exactly once and in increasing order (`disp_snd`); the number of busy
workers equals handed-out minus resolved indices and never exceeds
`min pool total`; every busy worker holds exactly one dispatched,
not-yet-recorded index, distinct workers hold distinct indices; recorded
slots hold the operation's response for their index, all other slots the
initial fill; and every dispatched index is either recorded or held by a
busy worker. -/
structure Inv (total pool : Nat) (op : Nat → Resp) (fill : Resp)
    (s : EngineState) : Prop where
  resp_len : s.responses.length = total
  idx_le : s.idx ≤ total
  idx_eq : s.idx = s.done + s.procs.length
  pool_le : s.procs.length ≤ min pool total
  keys_nodup : (s.procs.map Prod.fst).Nodup
  held_lt : ∀ p ∈ s.procs, p.2 < s.idx
  held_inj : ∀ p ∈ s.procs, ∀ q ∈ s.procs, p.1 ≠ q.1 → p.2 ≠ q.2
  held_unrec : ∀ p ∈ s.procs, p.2 ∉ s.recorded
  rec_lt : ∀ i ∈ s.recorded, i < s.idx
  rec_resp : ∀ i ∈ s.recorded, s.responses[i]? = some (op i)
  unrec_resp : ∀ i, i < total → i ∉ s.recorded → s.responses[i]? = some fill
  disp_snd : s.dispatched.map Prod.snd = List.range s.idx
  covered : ∀ i, i < s.idx → i ∈ s.recorded ∨ ∃ p, p ∈ s.procs ∧ p.2 = i

theorem inv_init (total pool : Nat) (op : Nat → Resp) (laggard : Bool) :
    Inv total pool op (if laggard then Resp.timeout else Resp.pynone)
      (initState total pool laggard) := by
  constructor
  · simp [initState]
  · exact Nat.min_le_right _ _
  · simp [initState]
  · simp [initState]
  · simp only [initState, List.map_map]
    have : (Prod.fst ∘ fun c => ((c : Nat), c)) = id := rfl
    rw [this, List.map_id]
    exact List.nodup_range _
  · intro p hp
    simp only [initState, List.mem_map, List.mem_range] at hp
    obtain ⟨c, hc, rfl⟩ := hp
    simpa [initState] using hc
  · intro p hp q hq hne
    simp only [initState, List.mem_map, List.mem_range] at hp hq
    obtain ⟨c, _, rfl⟩ := hp
    obtain ⟨d, _, rfl⟩ := hq
    exact hne
  · intro p _
    simp [initState]
  · intro i hi
    simp [initState] at hi
  · intro i hi
    simp [initState] at hi
  · intro i hitot _
    simp [initState, List.getElem?_replicate, hitot]
  · simp only [initState, List.map_map]
    have : (Prod.snd ∘ fun c => ((c : Nat), c)) = id := rfl
    rw [this, List.map_id]
  · intro i hi
    simp only [initState] at hi ⊢
    refine Or.inr ⟨(i, i), ?_, rfl⟩
    exact List.mem_map_of_mem _ (List.mem_range.mpr hi)

theorem processMsg_inv {total pool : Nat} {op : Nat → Resp} {fill : Resp}
    {s s2 : EngineState} {c : Nat} (hInv : Inv total pool op fill s)
    (h : processMsg total op s c = some s2) : Inv total pool op fill s2 := by
  unfold processMsg at h
  cases hl : alLookup s.procs c with
  | none => rw [hl] at h; cases h
  | some j =>
    simp only [hl] at h
    have hcj : (c, j) ∈ s.procs := alLookup_mem hl
    have hjlt : j < s.idx := hInv.held_lt _ hcj
    have hjtot : j < total := lt_of_lt_of_le hjlt hInv.idx_le
    have hjunrec : j ∉ s.recorded := hInv.held_unrec _ hcj
    have hjresp : j < s.responses.length := by rw [hInv.resp_len]; exact hjtot
    by_cases hidx : s.idx < total
    · rw [if_pos hidx] at h
      injection h with h
      subst h
      refine { resp_len := ?_, idx_le := ?_, idx_eq := ?_, pool_le := ?_,
               keys_nodup := ?_, held_lt := ?_, held_inj := ?_,
               held_unrec := ?_, rec_lt := ?_, rec_resp := ?_,
               unrec_resp := ?_, disp_snd := ?_, covered := ?_ }
      · show (s.responses.set j (op j)).length = total
        rw [List.length_set]; exact hInv.resp_len
      · show s.idx + 1 ≤ total
        omega
      · show s.idx + 1 = (s.done + 1) + (alSet s.procs c s.idx).length
        rw [alSet_length]
        have := hInv.idx_eq
        omega
      · show (alSet s.procs c s.idx).length ≤ min pool total
        rw [alSet_length]; exact hInv.pool_le
      · show ((alSet s.procs c s.idx).map Prod.fst).Nodup
        rw [alSet_map_fst]; exact hInv.keys_nodup
      · intro p hp
        show p.2 < s.idx + 1
        rcases mem_alSet hInv.keys_nodup hp with rfl | ⟨hpl, _⟩
        · exact Nat.lt_succ_self _
        · exact Nat.lt_succ_of_lt (hInv.held_lt p hpl)
      · intro p hp q hq hne
        rcases mem_alSet hInv.keys_nodup hp with rfl | ⟨hpl, hpne⟩ <;>
          rcases mem_alSet hInv.keys_nodup hq with rfl | ⟨hql, hqne⟩
        · exact absurd rfl hne
        · have := hInv.held_lt q hql
          show s.idx ≠ q.2
          omega
        · have := hInv.held_lt p hpl
          show p.2 ≠ s.idx
          omega
        · exact hInv.held_inj p hpl q hql hne
      · intro p hp hmem
        rcases mem_alSet hInv.keys_nodup hp with rfl | ⟨hpl, hpne⟩
        · rcases List.mem_append.mp hmem with hm | hm
          · exact absurd (hInv.rec_lt _ hm) (lt_irrefl _)
          · rw [List.mem_singleton] at hm
            have hsj : s.idx = j := hm
            omega
        · rcases List.mem_append.mp hmem with hm | hm
          · exact hInv.held_unrec p hpl hm
          · rw [List.mem_singleton] at hm
            exact hInv.held_inj p hpl (c, j) hcj hpne hm
      · intro i hi
        rcases List.mem_append.mp hi with hm | hm
        · exact Nat.lt_succ_of_lt (hInv.rec_lt _ hm)
        · rw [List.mem_singleton] at hm
          subst hm
          exact Nat.lt_succ_of_lt hjlt
      · intro i hi
        show (s.responses.set j (op j))[i]? = some (op i)
        rcases List.mem_append.mp hi with hm | hm
        · have hij : j ≠ i := fun he => hjunrec (he ▸ hm)
          rw [List.getElem?_set_ne hij]
          exact hInv.rec_resp _ hm
        · rw [List.mem_singleton] at hm
          subst hm
          rw [List.getElem?_set_eq_of_lt _ hjresp]
      · intro i hitot hinot
        show (s.responses.set j (op j))[i]? = some fill
        have hinrec : i ∉ s.recorded := fun hm =>
          hinot (List.mem_append.mpr (Or.inl hm))
        have hij : j ≠ i := fun he =>
          hinot (List.mem_append.mpr (Or.inr (List.mem_singleton.mpr he.symm)))
        rw [List.getElem?_set_ne hij]
        exact hInv.unrec_resp i hitot hinrec
      · show (s.dispatched ++ [(c, s.idx)]).map Prod.snd = List.range (s.idx + 1)
        rw [List.map_append, hInv.disp_snd, List.range_succ]
        rfl
      · intro i hi
        have hi2 : i < s.idx + 1 := hi
        by_cases hii : i = s.idx
        · exact Or.inr ⟨(c, s.idx), alSet_mem_self hl _, hii.symm⟩
        · have hi' : i < s.idx := by omega
          rcases hInv.covered i hi' with hm | ⟨p, hp, hpi⟩
          · exact Or.inl (List.mem_append.mpr (Or.inl hm))
          · by_cases hpc : p.1 = c
            · have hpj : p.2 = j := alLookup_unique hInv.keys_nodup hl hp hpc
              refine Or.inl (List.mem_append.mpr (Or.inr ?_))
              rw [List.mem_singleton]
              omega
            · exact Or.inr ⟨p, mem_alSet_of_ne hp hpc _, hpi⟩
    · rw [if_neg hidx] at h
      injection h with h
      subst h
      have hrem := alRemove_length hl
      refine { resp_len := ?_, idx_le := ?_, idx_eq := ?_, pool_le := ?_,
               keys_nodup := ?_, held_lt := ?_, held_inj := ?_,
               held_unrec := ?_, rec_lt := ?_, rec_resp := ?_,
               unrec_resp := ?_, disp_snd := ?_, covered := ?_ }
      · show (s.responses.set j (op j)).length = total
        rw [List.length_set]; exact hInv.resp_len
      · exact hInv.idx_le
      · show s.idx = (s.done + 1) + (alRemove s.procs c).length
        have := hInv.idx_eq
        omega
      · show (alRemove s.procs c).length ≤ min pool total
        have := hInv.pool_le
        omega
      · exact hInv.keys_nodup.sublist (alRemove_map_fst_sublist _ _)
      · intro p hp
        exact hInv.held_lt p (mem_alRemove hInv.keys_nodup hp).1
      · intro p hp q hq hne
        exact hInv.held_inj p (mem_alRemove hInv.keys_nodup hp).1 q
          (mem_alRemove hInv.keys_nodup hq).1 hne
      · intro p hp hmem
        obtain ⟨hpl, hpne⟩ := mem_alRemove hInv.keys_nodup hp
        rcases List.mem_append.mp hmem with hm | hm
        · exact hInv.held_unrec p hpl hm
        · rw [List.mem_singleton] at hm
          exact hInv.held_inj p hpl (c, j) hcj hpne hm
      · intro i hi
        rcases List.mem_append.mp hi with hm | hm
        · exact hInv.rec_lt _ hm
        · rw [List.mem_singleton] at hm
          subst hm
          exact hjlt
      · intro i hi
        show (s.responses.set j (op j))[i]? = some (op i)
        rcases List.mem_append.mp hi with hm | hm
        · have hij : j ≠ i := fun he => hjunrec (he ▸ hm)
          rw [List.getElem?_set_ne hij]
          exact hInv.rec_resp _ hm
        · rw [List.mem_singleton] at hm
          subst hm
          rw [List.getElem?_set_eq_of_lt _ hjresp]
      · intro i hitot hinot
        show (s.responses.set j (op j))[i]? = some fill
        have hinrec : i ∉ s.recorded := fun hm =>
          hinot (List.mem_append.mpr (Or.inl hm))
        have hij : j ≠ i := fun he =>
          hinot (List.mem_append.mpr (Or.inr (List.mem_singleton.mpr he.symm)))
        rw [List.getElem?_set_ne hij]
        exact hInv.unrec_resp i hitot hinrec
      · exact hInv.disp_snd
      · intro i hi
        rcases hInv.covered i hi with hm | ⟨p, hp, hpi⟩
        · exact Or.inl (List.mem_append.mpr (Or.inl hm))
        · by_cases hpc : p.1 = c
          · have hpj : p.2 = j := alLookup_unique hInv.keys_nodup hl hp hpc
            refine Or.inl (List.mem_append.mpr (Or.inr ?_))
            rw [List.mem_singleton]
            omega
          · exact Or.inr ⟨p, mem_alRemove_of_ne hp hpc, hpi⟩

theorem inv_done_le {total pool : Nat} {op : Nat → Resp} {fill : Resp}
    {s : EngineState} (hInv : Inv total pool op fill s) : s.done ≤ total := by
  have h1 := hInv.idx_eq
  have h2 := hInv.idx_le
  omega

theorem inv_set_tw {total pool : Nat} {op : Nat → Resp} {fill : Resp}
    {s : EngineState} (hInv : Inv total pool op fill s) (t : ℚ) :
    Inv total pool op fill { s with totalWaited := t } :=
  ⟨hInv.resp_len, hInv.idx_le, hInv.idx_eq, hInv.pool_le, hInv.keys_nodup,
   hInv.held_lt, hInv.held_inj, hInv.held_unrec, hInv.rec_lt, hInv.rec_resp,
   hInv.unrec_resp, hInv.disp_snd, hInv.covered⟩

theorem iterStep_inv {total pool : Nat} {op : Nat → Resp} {fill : Resp}
    {cfg : Option (ℚ × Option Int)} {s s2 : EngineState} {e : Event}
    (hInv : Inv total pool op fill s)
    (h : iterStep total op cfg s e = IterOut.cont s2 ∨
         iterStep total op cfg s e = IterOut.brk s2) :
    Inv total pool op fill s2 := by
  cases e with
  | alarmFired =>
    rcases cfg with _ | ⟨T, wf⟩
    · simp [iterStep] at h
    · rcases wf with _ | n
      · rcases h with h | h
        · cases h
        · cases h; exact hInv
      · simp only [iterStep] at h
        by_cases h0 : n = 0
        · rw [if_pos h0] at h
          rcases h with h | h
          · cases h
          · cases h; exact hInv
        · rw [if_neg h0] at h
          by_cases hle : n ≤ (s.done : Int)
          · rw [if_pos hle] at h
            rcases h with h | h
            · cases h
            · cases h; exact hInv
          · rw [if_neg hle] at h
            rcases h with h | h
            · cases h; exact hInv
            · cases h
  | arrive c t =>
    rcases cfg with _ | ⟨T, wf⟩
    · simp only [iterStep] at h
      cases hm : processMsg total op s c with
      | none =>
        simp only [hm] at h
        rcases h with h | h <;> cases h
      | some s3 =>
        simp only [hm] at h
        rcases h with h | h
        · cases h; exact processMsg_inv hInv hm
        · cases h
    · simp only [iterStep] at h
      by_cases hg : waitGate wf s.done = true
      · rw [if_pos hg] at h
        by_cases hT : T < s.totalWaited + t
        · rw [if_pos hT] at h
          rcases h with h | h
          · cases h
          · cases h; exact inv_set_tw hInv _
        · rw [if_neg hT] at h
          cases hm : processMsg total op { s with totalWaited := s.totalWaited + t } c with
          | none =>
            simp only [hm] at h
            rcases h with h | h <;> cases h
          | some s3 =>
            simp only [hm] at h
            rcases h with h | h
            · cases h; exact processMsg_inv (inv_set_tw hInv _) hm
            · cases h
      · rw [if_neg hg] at h
        cases hm : processMsg total op s c with
        | none =>
          simp only [hm] at h
          rcases h with h | h <;> cases h
        | some s3 =>
          simp only [hm] at h
          rcases h with h | h
          · cases h; exact processMsg_inv hInv hm
          · cases h

theorem engineLoop_inv {total pool : Nat} {op : Nat → Resp} {fill : Resp}
    {cfg : Option (ℚ × Option Int)} :
    ∀ (evs : List Event) (s : EngineState), Inv total pool op fill s →
      ∀ {s2 : EngineState} {early : Bool},
        engineLoop total op cfg evs s = some (s2, early) →
        Inv total pool op fill s2 ∧ (early = false → s2.done = total) := by
  intro evs
  induction evs with
  | nil =>
    intro s hInv s2 early h
    simp only [engineLoop] at h
    by_cases hd : total ≤ s.done
    · rw [if_pos hd] at h
      injection h with h
      cases h
      refine ⟨hInv, fun _ => ?_⟩
      have := inv_done_le hInv
      omega
    · rw [if_neg hd] at h
      cases h
  | cons e rest ih =>
    intro s hInv s2 early h
    simp only [engineLoop] at h
    by_cases hd : total ≤ s.done
    · rw [if_pos hd] at h
      injection h with h
      cases h
      refine ⟨hInv, fun _ => ?_⟩
      have := inv_done_le hInv
      omega
    · rw [if_neg hd] at h
      cases hstep : iterStep total op cfg s e with
      | invalid => simp only [hstep] at h; cases h
      | brk s3 =>
        simp only [hstep] at h
        injection h with h
        cases h
        exact ⟨iterStep_inv hInv (Or.inr hstep), fun hf => Bool.noConfusion hf⟩
      | cont s3 =>
        simp only [hstep] at h
        exact ih s3 (iterStep_inv hInv (Or.inl hstep)) h

theorem runPrefix_inv {total pool : Nat} {op : Nat → Resp} {fill : Resp}
    {cfg : Option (ℚ × Option Int)} :
    ∀ (evs : List Event) (s : EngineState), Inv total pool op fill s →
      ∀ {s2 : EngineState},
        runPrefix total op cfg evs s = some s2 → Inv total pool op fill s2 := by
  intro evs
  induction evs with
  | nil =>
    intro s hInv s2 h
    simp only [runPrefix] at h
    cases h
    exact hInv
  | cons e rest ih =>
    intro s hInv s2 h
    simp only [runPrefix] at h
    by_cases hd : total ≤ s.done
    · rw [if_pos hd] at h
      cases h
      exact hInv
    · rw [if_neg hd] at h
      cases hstep : iterStep total op cfg s e with
      | invalid => simp only [hstep] at h; cases h
      | brk s3 =>
        simp only [hstep] at h
        cases h
        exact iterStep_inv hInv (Or.inr hstep)
      | cont s3 =>
        simp only [hstep] at h
        exact ih s3 (iterStep_inv hInv (Or.inl hstep)) h

theorem engineLoop_none_false {total : Nat} {op : Nat → Resp} :
    ∀ (evs : List Event) (s : EngineState) {s2 : EngineState} {early : Bool},
      engineLoop total op none evs s = some (s2, early) → early = false := by
  intro evs
  induction evs with
  | nil =>
    intro s s2 early h
    simp only [engineLoop] at h
    by_cases hd : total ≤ s.done
    · rw [if_pos hd] at h
      injection h with h
      cases h
      rfl
    · rw [if_neg hd] at h
      cases h
  | cons e rest ih =>
    intro s s2 early h
    simp only [engineLoop] at h
    by_cases hd : total ≤ s.done
    · rw [if_pos hd] at h
      injection h with h
      cases h
      rfl
    · rw [if_neg hd] at h
      cases hstep : iterStep total op none s e with
      | invalid => simp only [hstep] at h; cases h
      | brk s3 =>
        exfalso
        cases e with
        | alarmFired => simp [iterStep] at hstep
        | arrive c t =>
          simp only [iterStep] at hstep
          cases hm : processMsg total op s c with
          | none => simp only [hm] at hstep; cases hstep
          | some s4 => simp only [hm] at hstep; cases hstep
      | cont s3 =>
        simp only [hstep] at h
        exact ih s3 h

theorem multirunExec_cases {total pool : Nat} {op : Nat → Resp}
    {cfg : Option (ℚ × Option Int)} {sched : List Event} {out : Outcome}
    (h : multirunExec total pool op cfg sched = some out) :
    ∃ s early,
      engineLoop total op cfg sched (initState total pool cfg.isSome) = some (s, early) ∧
      out = finishRun s early := by
  unfold multirunExec at h
  rcases Option.map_eq_some'.mp h with ⟨⟨s, early⟩, h1, h2⟩
  exact ⟨s, early, h1, h2.symm⟩

theorem multirunExec_complete {total pool : Nat} {op : Nat → Resp}
    {cfg : Option (ℚ × Option Int)} {sched : List Event} {out : Outcome}
    (h : multirunExec total pool op cfg sched = some out)
    (hb : out.brokeEarly = false) :
    out.responses.length = total ∧
      ∀ i, i < total → out.responses[i]? = some (op i) := by
  obtain ⟨s, early, hloop, rfl⟩ := multirunExec_cases h
  have hInv0 := inv_init total pool op cfg.isSome
  obtain ⟨hInv, hdone⟩ := engineLoop_inv sched _ hInv0 hloop
  have hearly : early = false := hb
  have hdt : s.done = total := hdone hearly
  have hidx1 : s.idx = total := by
    have h1 := hInv.idx_eq
    have h2 := hInv.idx_le
    omega
  have hplen : s.procs.length = 0 := by
    have h1 := hInv.idx_eq
    omega
  have hnil : s.procs = [] := List.length_eq_zero.mp hplen
  refine ⟨hInv.resp_len, ?_⟩
  intro i hi
  rcases hInv.covered i (by omega) with hm | ⟨p, hp, _⟩
  · exact hInv.rec_resp i hm
  · rw [hnil] at hp
    simp at hp

theorem multirunExec_break {total pool : Nat} {op : Nat → Resp} {T : ℚ}
    {wf : Option Int} {sched : List Event} {out : Outcome}
    (h : multirunExec total pool op (some (T, wf)) sched = some out)
    (hb : out.brokeEarly = true) :
    out.responses.length = total ∧
    (∀ i ∈ out.recorded, out.responses[i]? = some (op i)) ∧
    (∀ i, i < total → i ∉ out.recorded → out.responses[i]? = some Resp.timeout) ∧
    (∀ p ∈ out.killed, p.2 < total ∧ p.2 ∉ out.recorded) ∧
    (∀ p ∈ out.dispatched, p.2 ∉ out.recorded →
      ∃ q, q ∈ out.killed ∧ q.2 = p.2) := by
  obtain ⟨s, early, hloop, rfl⟩ := multirunExec_cases h
  have hInv0 := inv_init total pool op (some (T, wf) : Option (ℚ × Option Int)).isSome
  obtain ⟨hInv, _⟩ := engineLoop_inv sched _ hInv0 hloop
  have hearly : early = true := hb
  subst hearly
  refine ⟨hInv.resp_len, hInv.rec_resp, ?_, ?_, ?_⟩
  · intro i hi hnr
    exact hInv.unrec_resp i hi hnr
  · intro p hp
    exact ⟨lt_of_lt_of_le (hInv.held_lt p hp) hInv.idx_le, hInv.held_unrec p hp⟩
  · intro p hp hnr
    have hmem : p.2 ∈ s.dispatched.map Prod.snd := List.mem_map_of_mem _ hp
    rw [hInv.disp_snd, List.mem_range] at hmem
    rcases hInv.covered p.2 hmem with hm | ⟨q, hq, hq2⟩
    · exact absurd hm hnr
    · exact ⟨q, hq, hq2⟩

/-- C1: for every non-empty settings list of length `total` and pool size
at least 1, a parallel run of `_multirun` that completes normally (the
orchestrator loop exits without an early break) returns a response list
of length exactly `total` in which the entry at every index `i` is the
response produced by executing the operation under `settings_list[i]`,
for every schedule of worker arrivals (completion order across workers is
unconstrained). -/
theorem mr_C1 (total pool : Nat) (op : Nat → Resp)
    (cfg : Option (ℚ × Option Int)) (sched : List Event) (out : Outcome)
    ( _htotal : 0 < total) ( _hpool : 0 < pool)
    (h : multirunExec total pool op cfg sched = some out)
    (hnorm : out.brokeEarly = false) :
    out.responses.length = total ∧
      ∀ i, i < total → out.responses[i]? = some (op i) :=
  multirunExec_complete h hnorm

theorem mr_C1_witness :
    0 < 2 ∧ 0 < 1 ∧
    (({ responses := [Resp.ok 0, Resp.ok 1], recorded := [0, 1],
        dispatched := [(0, 0), (0, 1)], killed := [], brokeEarly := false,
        doneCount := 2 } : Outcome).responses.length = 2 ∧
      ∀ i, i < 2 →
        ({ responses := [Resp.ok 0, Resp.ok 1], recorded := [0, 1],
           dispatched := [(0, 0), (0, 1)], killed := [], brokeEarly := false,
           doneCount := 2 } : Outcome).responses[i]? = some (Resp.ok i)) :=
  ⟨by decide, by decide,
    mr_C1 2 1 (fun i => Resp.ok i) none [Event.arrive 0 0, Event.arrive 0 0]
      _ (by decide) (by decide) (by decide) (by decide)⟩

/-- C2: at every reachable state of a parallel run, the dispatch trace is
exactly the indices `0, 1, ..., idx-1` in increasing order (so every
index handed out so far was dispatched exactly once, in strictly
increasing order, and on completion the trace is exactly `0..total-1`);
no more than `total` indices are ever handed out; the number of
dispatched-but-unresolved indices equals the number of busy workers,
which never exceeds `min pool_size total` (hence never exceeds
`pool_size`); and client ids identify at most one busy worker each, so
each worker holds at most one index at a time. -/
theorem mr_C2 (total pool : Nat) (op : Nat → Resp)
    (cfg : Option (ℚ × Option Int)) (sched : List Event) (s : EngineState)
    (h : runPrefix total op cfg sched (initState total pool cfg.isSome) = some s) :
    s.dispatched.map Prod.snd = List.range s.idx ∧
    s.idx ≤ total ∧
    s.idx = s.done + s.procs.length ∧
    s.procs.length ≤ min pool total ∧
    min pool total ≤ pool ∧
    (s.procs.map Prod.fst).Nodup ∧
    (s.done = total → s.dispatched.map Prod.snd = List.range total) := by
  have hInv := runPrefix_inv sched _ (inv_init total pool op cfg.isSome) h
  refine ⟨hInv.disp_snd, hInv.idx_le, hInv.idx_eq, hInv.pool_le,
    Nat.min_le_left _ _, hInv.keys_nodup, ?_⟩
  intro hdt
  have h1 := hInv.idx_eq
  have h2 := hInv.idx_le
  have hidx : s.idx = total := by omega
  rw [← hidx]
  exact hInv.disp_snd

theorem mr_C2_witness :
    (initState 3 2 false).dispatched.map Prod.snd = List.range (initState 3 2 false).idx ∧
    (initState 3 2 false).idx ≤ 3 ∧
    (initState 3 2 false).idx = (initState 3 2 false).done + (initState 3 2 false).procs.length ∧
    (initState 3 2 false).procs.length ≤ min 2 3 ∧
    min 2 3 ≤ 2 ∧
    ((initState 3 2 false).procs.map Prod.fst).Nodup ∧
    ((initState 3 2 false).done = 3 →
      (initState 3 2 false).dispatched.map Prod.snd = List.range 3) :=
  mr_C2 3 2 (fun i => Resp.ok i) none [] (initState 3 2 false) (by decide)

/-- A callable operation that raises for target index 1 and succeeds for
every other index. -/
def failAtOne : Nat → Except Nat Nat :=
  fun i => if i = 1 then Except.error 40 else Except.ok i

/-- C3: a worker never crashes on a raised exception: whenever the
operation raises while a worker executes index `i`, the exception value
becomes the response and the worker still reports a
`(client_id, index, response)` message for that index.  Consequently,
with `total = 3`, `pool_size = 3`, `warn_only = true` and an operation
failing only for index 1, every completing run returns a response list
with the error at index 1 and successes at indices 0 and 2. -/
theorem mr_C3 :
    (∀ (run : Nat → Except Nat Nat) (clientId i e : Nat),
      run i = Except.error e →
        workerMessage run clientId i = (clientId, i, Resp.err e)) ∧
    (∀ (sched : List Event) (out : Outcome),
      multirunExec 3 3 (workerRespond failAtOne) none sched = some out →
        out.responses = [Resp.ok 0, Resp.err 40, Resp.ok 2]) := by
  constructor
  · intro run clientId i e hrun
    unfold workerMessage workerRespond
    rw [hrun]
  · intro sched out h
    have hb : out.brokeEarly = false := by
      obtain ⟨s, early, hloop, rfl⟩ := multirunExec_cases h
      exact engineLoop_none_false sched _ hloop
    obtain ⟨hlen, hpt⟩ := multirunExec_complete h hb
    apply List.ext_getElem?
    intro n
    rcases Nat.lt_or_ge n 3 with hn | hn
    · rw [hpt n hn]
      interval_cases n <;> rfl
    · rw [List.getElem?_eq_none (hlen ▸ hn),
          List.getElem?_eq_none (by simpa using hn)]

theorem mr_C3_witness :
    workerMessage failAtOne 7 1 = (7, 1, Resp.err 40) ∧
    ({ responses := [Resp.ok 0, Resp.err 40, Resp.ok 2], recorded := [2, 0, 1],
       dispatched := [(0, 0), (1, 1), (2, 2)], killed := [],
       brokeEarly := false, doneCount := 3 } : Outcome).responses =
      [Resp.ok 0, Resp.err 40, Resp.ok 2] :=
  ⟨mr_C3.1 failAtOne 7 1 40 rfl,
   mr_C3.2 [Event.arrive 2 0, Event.arrive 0 0, Event.arrive 1 0] _ (by decide)⟩

/-- C4: when a laggards timeout is configured and the orchestrator loop
breaks out early, the run still returns a response list of length
`total`; every index whose result was received holds that real response;
every index never received (including indices never dispatched) still
holds the `TIMEOUT` sentinel; every killed worker held a dispatched,
undelivered index; and every dispatched index whose result was not
received is held by one of the workers that are forcibly terminated
before the run returns. -/
theorem mr_C4 (total pool : Nat) (op : Nat → Resp) (T : ℚ) (wf : Option Int)
    (sched : List Event) (out : Outcome)
    (h : multirunExec total pool op (some (T, wf)) sched = some out)
    (hbrk : out.brokeEarly = true) :
    out.responses.length = total ∧
    (∀ i ∈ out.recorded, out.responses[i]? = some (op i)) ∧
    (∀ i, i < total → i ∉ out.recorded → out.responses[i]? = some Resp.timeout) ∧
    (∀ p ∈ out.killed, p.2 < total ∧ p.2 ∉ out.recorded) ∧
    (∀ p ∈ out.dispatched, p.2 ∉ out.recorded →
      ∃ q, q ∈ out.killed ∧ q.2 = p.2) :=
  multirunExec_break h hbrk

theorem mr_C4_witness :
    ({ responses := [Resp.ok 0, Resp.timeout], recorded := [0],
       dispatched := [(0, 0), (0, 1)], killed := [(0, 1)], brokeEarly := true,
       doneCount := 1 } : Outcome).responses.length = 2 ∧
    (∀ i ∈ ({ responses := [Resp.ok 0, Resp.timeout], recorded := [0],
              dispatched := [(0, 0), (0, 1)], killed := [(0, 1)],
              brokeEarly := true, doneCount := 1 } : Outcome).recorded,
      ({ responses := [Resp.ok 0, Resp.timeout], recorded := [0],
         dispatched := [(0, 0), (0, 1)], killed := [(0, 1)],
         brokeEarly := true, doneCount := 1 } : Outcome).responses[i]? =
        some (Resp.ok i)) ∧
    (∀ i, i < 2 →
      i ∉ ({ responses := [Resp.ok 0, Resp.timeout], recorded := [0],
             dispatched := [(0, 0), (0, 1)], killed := [(0, 1)],
             brokeEarly := true, doneCount := 1 } : Outcome).recorded →
      ({ responses := [Resp.ok 0, Resp.timeout], recorded := [0],
         dispatched := [(0, 0), (0, 1)], killed := [(0, 1)],
         brokeEarly := true, doneCount := 1 } : Outcome).responses[i]? =
        some Resp.timeout) ∧
    (∀ p ∈ ({ responses := [Resp.ok 0, Resp.timeout], recorded := [0],
              dispatched := [(0, 0), (0, 1)], killed := [(0, 1)],
              brokeEarly := true, doneCount := 1 } : Outcome).killed,
      p.2 < 2 ∧ p.2 ∉ ({ responses := [Resp.ok 0, Resp.timeout],
                          recorded := [0], dispatched := [(0, 0), (0, 1)],
                          killed := [(0, 1)], brokeEarly := true,
                          doneCount := 1 } : Outcome).recorded) ∧
    (∀ p ∈ ({ responses := [Resp.ok 0, Resp.timeout], recorded := [0],
              dispatched := [(0, 0), (0, 1)], killed := [(0, 1)],
              brokeEarly := true, doneCount := 1 } : Outcome).dispatched,
      p.2 ∉ ({ responses := [Resp.ok 0, Resp.timeout], recorded := [0],
               dispatched := [(0, 0), (0, 1)], killed := [(0, 1)],
               brokeEarly := true, doneCount := 1 } : Outcome).recorded →
      ∃ q, q ∈ ({ responses := [Resp.ok 0, Resp.timeout], recorded := [0],
                  dispatched := [(0, 0), (0, 1)], killed := [(0, 1)],
                  brokeEarly := true, doneCount := 1 } : Outcome).killed ∧
        q.2 = p.2) :=
  mr_C4 2 1 (fun i => Resp.ok i) 5 (some 1)
    [Event.arrive 0 0, Event.alarmFired] _ (by decide) (by decide)

/-- C5 counterexample: `laggards_timeout = -1` is supplied and is not a
positive duration, yet `multirun` raises no error: being a truthy int, it
passes both checks (lines 361-365 test only truthiness and `isinstance
int`), and the call proceeds to fork workers.  This refutes the claimed
`exactly when laggard_timeout is supplied but is not a positive integral
duration` condition. -/
theorem mr_C5_cex :
    multirunModel 1 1 (fun _ => Resp.ok 0) (PyVal.int (-1)) PyVal.pynone [] =
      Except.ok { result := none, cfg := some ((-1 : ℚ), none),
                  workersSpawned := 1, channelCreated := true } := by
  rfl

/-- C5 (amended): for a non-empty settings list, `multirun` raises
`ValueError` synchronously, before any worker is spawned, exactly when
`laggards_timeout` is truthy (supplied and nonzero) but not of integral
type, or when `laggards_timeout` is a truthy int and `wait_for` is a
float outside `[0.0, 1.0]`.  A nonpositive integral `laggards_timeout`
is accepted, a zero or absent `laggards_timeout` disables both checks,
and `wait_for` is never validated on its own. -/
theorem mr_C5 (total pool : Nat) (op : Nat → Resp) (lt wf : PyVal)
    (sched : List Event) (h : total ≠ 0) :
    (∃ msg, multirunModel total pool op lt wf sched = Except.error msg) ↔
      (lt.truthy = true ∧ lt.isInt = false) ∨
      (lt.truthy = true ∧ lt.isInt = true ∧
        ∃ q, wf = PyVal.float q ∧ ¬(0 ≤ q ∧ q ≤ 1)) := by
  unfold multirunModel
  rw [if_neg h]
  rcases lt with _ | nlt | qlt
  · simp [multirunValidate, PyVal.truthy]
  · by_cases hn : nlt = 0
    · subst hn
      simp [multirunValidate, PyVal.truthy]
    · rcases wf with _ | nwf | qwf
      · simp [multirunValidate, PyVal.truthy, PyVal.isInt, hn]
      · simp [multirunValidate, PyVal.truthy, PyVal.isInt, hn]
      · by_cases hq : 0 ≤ qwf ∧ qwf ≤ 1
        · simp [multirunValidate, PyVal.truthy, PyVal.isInt, hn, hq]
        · simp [multirunValidate, PyVal.truthy, PyVal.isInt, hn, hq]
          intro h0
          by_contra hc
          push_neg at hc
          exact hq ⟨h0, hc⟩
  · by_cases hq0 : qlt = 0
    · subst hq0
      simp [multirunValidate, PyVal.truthy]
    · simp [multirunValidate, PyVal.truthy, PyVal.isInt, hq0]

theorem mr_C5_witness :
    ∃ msg, multirunModel 1 1 (fun _ => Resp.ok 0) (PyVal.float (1/2))
      PyVal.pynone [] = Except.error msg :=
  (mr_C5 1 1 (fun _ => Resp.ok 0) (PyVal.float (1/2)) PyVal.pynone []
      (by decide)).mpr
    (Or.inl ⟨by norm_num [PyVal.truthy], rfl⟩)

/-- C6: for every operation and every configuration of the optional
parameters (including invalid ones), a parallel run on an empty settings
list returns an empty response list immediately, with no worker forked
and no result socket created: the empty-list early return of lines
358-360 precedes argument validation, socket creation and forking. -/
theorem mr_C6 (pool : Nat) (op : Nat → Resp) (lt wf : PyVal)
    (sched : List Event) :
    multirunModel 0 pool op lt wf sched =
      Except.ok { result := some { responses := [], recorded := [],
                                   dispatched := [], killed := [],
                                   brokeEarly := false, doneCount := 0 },
                  cfg := none, workersSpawned := 0, channelCreated := false } := by
  unfold multirunModel
  rw [if_pos rfl]

/-- C7: with a truthy integral laggards timeout over a settings list of
length `total`, a float `wait_for = q` in `[0.0, 1.0]` is converted to
the absolute threshold `ceil(q * total)` and that converted value is
exactly the threshold handed to the orchestrator loop, while an integer
`wait_for` is passed through unchanged as the absolute count. -/
theorem mr_C7 (total pool : Nat) (op : Nat → Resp) (sched : List Event)
    (T : Int) (hT : T ≠ 0) (htot : total ≠ 0) (q : ℚ)
    (hq : 0 ≤ q ∧ q ≤ 1) (n : Int) :
    (∃ call,
      multirunModel total pool op (PyVal.int T) (PyVal.float q) sched =
        Except.ok call ∧
      call.cfg = some ((T : ℚ), some ⌈q * (total : ℚ)⌉) ∧
      call.result =
        multirunExec total pool op (some ((T : ℚ), some ⌈q * (total : ℚ)⌉)) sched) ∧
    (∃ call,
      multirunModel total pool op (PyVal.int T) (PyVal.int n) sched =
        Except.ok call ∧
      call.cfg = some ((T : ℚ), some n) ∧
      call.result = multirunExec total pool op (some ((T : ℚ), some n)) sched) := by
  constructor
  · refine ⟨{ result := multirunExec total pool op
                (some ((T : ℚ), some ⌈q * (total : ℚ)⌉)) sched,
              cfg := some ((T : ℚ), some ⌈q * (total : ℚ)⌉),
              workersSpawned := min pool total,
              channelCreated := true }, ?_, rfl, rfl⟩
    simp [multirunModel, multirunValidate, mkCfg, PyVal.truthy, PyVal.isInt,
      htot, hT, hq]
  · refine ⟨{ result := multirunExec total pool op (some ((T : ℚ), some n)) sched,
              cfg := some ((T : ℚ), some n),
              workersSpawned := min pool total,
              channelCreated := true }, ?_, rfl, rfl⟩
    simp [multirunModel, multirunValidate, mkCfg, PyVal.truthy, PyVal.isInt,
      htot, hT]

theorem mr_C7_witness :
    (∃ call,
      multirunModel 3 1 (fun i => Resp.ok i) (PyVal.int 5) (PyVal.float (1/2)) [] =
        Except.ok call ∧
      call.cfg = some ((5 : ℚ), some ⌈(1/2 : ℚ) * ((3 : Nat) : ℚ)⌉) ∧
      call.result =
        multirunExec 3 1 (fun i => Resp.ok i)
          (some ((5 : ℚ), some ⌈(1/2 : ℚ) * ((3 : Nat) : ℚ)⌉)) []) ∧
    (∃ call,
      multirunModel 3 1 (fun i => Resp.ok i) (PyVal.int 5) (PyVal.int 9) [] =
        Except.ok call ∧
      call.cfg = some ((5 : ℚ), some 9) ∧
      call.result =
        multirunExec 3 1 (fun i => Resp.ok i) (some ((5 : ℚ), some 9)) []) :=
  mr_C7 3 1 (fun i => Resp.ok i) [] 5 (by decide) (by decide) (1/2)
    (by norm_num) 9

/-- Whether a response value is an `Exception` instance. -/
def RValue.isExn : RValue → Bool
  | .exn _ => true
  | .obj _ _ => false

/-- Truthiness of the `failed` attribute of a non-exception response. -/
def RValue.failedAttr : RValue → Bool
  | .exn _ => false
  | .obj f _ => f

/-- Truthiness of the `succeeded` attribute of a non-exception
response. -/
def RValue.succAttr : RValue → Bool
  | .exn _ => false
  | .obj _ s => s

/-- C8: `failed(responses)` is true exactly when some response is an
`Exception` or carries a truthy `failed` attribute; `succeeded(responses)`
is true exactly when every response is not an `Exception` and carries a
truthy `succeeded` attribute; and the `TIMEOUT` sentinel (with
`failed = 1`, `succeeded = 0`) always counts as failed and never as
succeeded. -/
theorem mr_C8 (rs : List RValue) :
    (failed rs = true ↔ ∃ r ∈ rs, r.isExn = true ∨ r.failedAttr = true) ∧
    (succeeded rs = true ↔ ∀ r ∈ rs, r.isExn = false ∧ r.succAttr = true) ∧
    (timeoutRValue.failedAttr = true ∧ timeoutRValue.succAttr = false) ∧
    (timeoutRValue ∈ rs → failed rs = true) ∧
    (succeeded rs = true → timeoutRValue ∉ rs) := by
  have hfail : failed rs = true ↔
      ∃ r ∈ rs, r.isExn = true ∨ r.failedAttr = true := by
    unfold failed
    rw [List.any_eq_true]
    constructor
    · rintro ⟨r, hr, hm⟩
      refine ⟨r, hr, ?_⟩
      rcases r with e | ⟨f, s⟩
      · exact Or.inl rfl
      · exact Or.inr hm
    · rintro ⟨r, hr, hor⟩
      refine ⟨r, hr, ?_⟩
      rcases r with e | ⟨f, s⟩
      · rfl
      · rcases hor with hx | hx
        · cases hx
        · exact hx
  have hsucc : succeeded rs = true ↔
      ∀ r ∈ rs, r.isExn = false ∧ r.succAttr = true := by
    unfold succeeded
    rw [List.all_eq_true]
    constructor
    · intro hall r hr
      have hm := hall r hr
      rcases r with e | ⟨f, s⟩
      · cases hm
      · exact ⟨rfl, hm⟩
    · intro hall r hr
      rcases r with e | ⟨f, s⟩
      · cases (hall _ hr).1
      · exact (hall _ hr).2
  refine ⟨hfail, hsucc, ⟨rfl, rfl⟩, ?_, ?_⟩
  · intro hmem
    exact hfail.mpr ⟨timeoutRValue, hmem, Or.inr rfl⟩
  · intro hs hmem
    exact Bool.noConfusion ((hsucc.mp hs) timeoutRValue hmem).2

theorem mr_C8_witness :
    failed [timeoutRValue] = true ∧ timeoutRValue ∉ ([] : List RValue) :=
  ⟨(mr_C8 [timeoutRValue]).2.2.2.1 (by decide),
   (mr_C8 []).2.2.2.2 (by decide)⟩

/-- C9 counterexample: on a response list of length 1, storing at index
`-1` does not fail although `-1` is outside `[0, 1)`: Python list item
assignment (which `ResponseList` inherits unchanged) resolves negative
indices from the end, so the store succeeds and replaces the last
element. -/
theorem mr_C9_cex :
    pyListSetItem [Resp.pynone] (-1) (Resp.ok 5) = ([Resp.ok 5], none) := by
  decide

/-- C9 (amended): storing a response at integer index `i` of a response
list of length `total` fails with `IndexError` exactly when
`i ∉ [-total, total)`; when it fails the list contents are unchanged; an
index in `[0, total)` stores at position `i`, and a negative index in
`[-total, 0)` stores at position `i + total`. -/
theorem mr_C9 (l : List Resp) (i : Int) (v : Resp) :
    ((pyListSetItem l i v).2.isSome = true ↔
      (i < -(l.length : Int) ∨ (l.length : Int) ≤ i)) ∧
    ((pyListSetItem l i v).2.isSome = true → (pyListSetItem l i v).1 = l) ∧
    (0 ≤ i → i < (l.length : Int) →
      pyListSetItem l i v = (l.set i.toNat v, none)) ∧
    (-(l.length : Int) ≤ i → i < 0 →
      pyListSetItem l i v = (l.set (i + l.length).toNat v, none)) := by
  unfold pyListSetItem
  by_cases h1 : 0 ≤ i ∧ i < (l.length : Int)
  · rw [if_pos h1]
    refine ⟨?_, ?_, ?_, ?_⟩
    · simp only [Option.isSome_none]
      constructor
      · intro hx; cases hx
      · intro hx; exfalso; omega
    · intro hs; cases hs
    · intro _ _; rfl
    · intro _ hb; exfalso; omega
  · rw [if_neg h1]
    by_cases h2 : -(l.length : Int) ≤ i ∧ i < 0
    · rw [if_pos h2]
      refine ⟨?_, ?_, ?_, ?_⟩
      · simp only [Option.isSome_none]
        constructor
        · intro hx; cases hx
        · intro hx; exfalso; omega
      · intro hs; cases hs
      · intro ha hb; exfalso; omega
      · intro _ _; rfl
    · rw [if_neg h2]
      refine ⟨?_, ?_, ?_, ?_⟩
      · simp only [Option.isSome_some]
        constructor
        · intro _; omega
        · intro _; trivial
      · intro _; rfl
      · intro ha hb; exfalso; exact h1 ⟨ha, hb⟩
      · intro ha hb; exfalso; exact h2 ⟨ha, hb⟩

theorem mr_C9_witness :
    ((pyListSetItem [Resp.pynone, Resp.ok 1] 2 (Resp.err 0)).2.isSome = true ↔
      ((2 : Int) < -(([Resp.pynone, Resp.ok 1] : List Resp).length : Int) ∨
        (([Resp.pynone, Resp.ok 1] : List Resp).length : Int) ≤ 2)) ∧
    ((pyListSetItem [Resp.pynone, Resp.ok 1] 2 (Resp.err 0)).2.isSome = true →
      (pyListSetItem [Resp.pynone, Resp.ok 1] 2 (Resp.err 0)).1 =
        [Resp.pynone, Resp.ok 1]) ∧
    (0 ≤ (2 : Int) → (2 : Int) < (([Resp.pynone, Resp.ok 1] : List Resp).length : Int) →
      pyListSetItem [Resp.pynone, Resp.ok 1] 2 (Resp.err 0) =
        ([Resp.pynone, Resp.ok 1].set (2 : Int).toNat (Resp.err 0), none)) ∧
    (-(([Resp.pynone, Resp.ok 1] : List Resp).length : Int) ≤ 2 → (2 : Int) < 0 →
      pyListSetItem [Resp.pynone, Resp.ok 1] 2 (Resp.err 0) =
        ([Resp.pynone, Resp.ok 1].set
          ((2 : Int) + ([Resp.pynone, Resp.ok 1] : List Resp).length).toNat
          (Resp.err 0), none)) :=
  mr_C9 [Resp.pynone, Resp.ok 1] 2 (Resp.err 0)

/-- C10: for every settings list and every integer argument, the integer
branch of `ContextRunner.select` raises `NameError`: the expression
`sample(self._settings, count)` on line 587 references the name `count`,
which is bound neither locally, nor at module level, nor among the
builtins, so the integer form of `select` never returns a value. -/
theorem mr_C10 (settingsList : List Nat) (n : Int) :
    selectIntBranch settingsList n =
      Except.error "NameError: global name count is not defined" := by
  have hnb : nameBound "count" = false := by decide
  simp [selectIntBranch, hnb]

end FabricCtx
